import Mathlib

/-!
# Verification of the websocket Engine-API client scripts

A shallow embedding, in Lean, of `scripts/connect_via_websockets_engine.py`:
the JWT issuance pipeline (hex secret decoding, base64url encoding, SHA-256,
HMAC-SHA256, token assembly) and a trace model of the single-connection
`main` coroutine.  Components the spec describes but the scripts only
illustrate (the correlation router, the transport's size policy) are modelled
from the spec and marked as such in their doc comments.

Bytes are modelled as `Nat` with explicit `< 256` bounds where they matter;
the fallible `bytes.fromhex` is modelled with `Option`; the clock
(`time.time()`) is an explicit natural-number parameter (whole unix seconds,
matching `int(time.time())`).
-/

namespace EngineWS

/-! ## Hex decoding (`bytes.fromhex`) -/

/-- ASCII whitespace, which `bytes.fromhex` skips between byte pairs. -/
def isHexWS (c : Char) : Bool :=
  c.toNat = 32 || c.toNat = 9 || c.toNat = 10 || c.toNat = 13 ||
  c.toNat = 11 || c.toNat = 12

/-- Value of one hexadecimal digit, or `none`. -/
def hexDigit? (c : Char) : Option Nat :=
  if 48 ≤ c.toNat ∧ c.toNat ≤ 57 then some (c.toNat - 48)
  else if 97 ≤ c.toNat ∧ c.toNat ≤ 102 then some (c.toNat - 87)
  else if 65 ≤ c.toNat ∧ c.toNat ≤ 70 then some (c.toNat - 55)
  else none

/-- Core of `bytes.fromhex`: two hex digits per byte, ASCII whitespace
skipped between pairs (not inside a pair); anything else is an error. -/
def fromhexCore : List Char → Option (List Nat)
  | [] => some []
  | [c] => if isHexWS c then some [] else none
  | c1 :: c2 :: rest =>
    if isHexWS c1 then fromhexCore (c2 :: rest)
    else
      match hexDigit? c1, hexDigit? c2 with
      | some hi, some lo => (fromhexCore rest).map (fun bs => (16 * hi + lo) :: bs)
      | _, _ => none

/-- `bytes.fromhex(secret_hex)`, as used on line 15 of the script:
`none` models the `ValueError` Python raises on malformed hex. -/
def fromhex (s : String) : Option (List Nat) :=
  fromhexCore s.toList

/-! ## base64url (`base64.urlsafe_b64encode(data).rstrip(b"=")`) -/

/-- Code point of the URL-safe base64 character for a 6-bit value. -/
def b64CharCode (x : Nat) : Nat :=
  if x < 26 then 65 + x
  else if x < 52 then 71 + x
  else if x < 62 then x - 4
  else if x = 62 then 45
  else 95

/-- The URL-safe base64 character for a 6-bit value. -/
def b64Char (x : Nat) : Char :=
  Char.ofNat (b64CharCode x)

/-- URL-safe base64 of a byte list, with the `=` padding already stripped:
a final 1-byte group yields 2 characters, a final 2-byte group 3. -/
def b64urlChars : List Nat → List Char
  | [] => []
  | [b1] => [b64Char (b1 / 4), b64Char (b1 % 4 * 16)]
  | [b1, b2] => [b64Char (b1 / 4), b64Char (b1 % 4 * 16 + b2 / 16),
                 b64Char (b2 % 16 * 4)]
  | b1 :: b2 :: b3 :: rest =>
    b64Char (b1 / 4) :: b64Char (b1 % 4 * 16 + b2 / 16) ::
    b64Char (b2 % 16 * 4 + b3 / 64) :: b64Char (b3 % 64) ::
    b64urlChars rest

/-- `_b64url` from the script: urlsafe base64, `=` stripped, decoded to text. -/
def b64url (data : List Nat) : String :=
  String.mk (b64urlChars data)

/-- Inverse of `b64CharCode` on the URL-safe alphabet. -/
def b64CharVal? (c : Char) : Option Nat :=
  if 65 ≤ c.toNat ∧ c.toNat ≤ 90 then some (c.toNat - 65)
  else if 97 ≤ c.toNat ∧ c.toNat ≤ 122 then some (c.toNat - 71)
  else if 48 ≤ c.toNat ∧ c.toNat ≤ 57 then some (c.toNat + 4)
  else if c.toNat = 45 then some 62
  else if c.toNat = 95 then some 63
  else none

/-- Decoder for unpadded URL-safe base64 (equivalently: restore the stripped
`=` padding, then base64url-decode).  Rejects impossible lengths (4k+1) and
nonzero trailing bits, so it is an exact inverse of `b64urlChars`. -/
def b64urlDecodeChars : List Char → Option (List Nat)
  | [] => some []
  | [_] => none
  | [c1, c2] =>
    match b64CharVal? c1, b64CharVal? c2 with
    | some v1, some v2 =>
      if v2 % 16 = 0 then some [v1 * 4 + v2 / 16] else none
    | _, _ => none
  | [c1, c2, c3] =>
    match b64CharVal? c1, b64CharVal? c2, b64CharVal? c3 with
    | some v1, some v2, some v3 =>
      if v3 % 4 = 0 then some [v1 * 4 + v2 / 16, v2 % 16 * 16 + v3 / 4]
      else none
    | _, _, _ => none
  | c1 :: c2 :: c3 :: c4 :: rest =>
    match b64CharVal? c1, b64CharVal? c2, b64CharVal? c3, b64CharVal? c4,
          b64urlDecodeChars rest with
    | some v1, some v2, some v3, some v4, some bs =>
      some ((v1 * 4 + v2 / 16) :: (v2 % 16 * 16 + v3 / 4) :: (v3 % 4 * 64 + v4) :: bs)
    | _, _, _, _, _ => none

/-- String-level base64url decoder. -/
def b64urlDecode (s : String) : Option (List Nat) :=
  b64urlDecodeChars s.toList

/-- Membership in the URL-safe base64 alphabet `A–Z a–z 0–9 - _`. -/
def isB64UrlChar (c : Char) : Bool :=
  (65 ≤ c.toNat && c.toNat ≤ 90) || (97 ≤ c.toNat && c.toNat ≤ 122) ||
  (48 ≤ c.toNat && c.toNat ≤ 57) || c.toNat = 45 || c.toNat = 95

/-! ## SHA-256 (`hashlib.sha256`), on byte lists -/

/-- 32-bit word arithmetic: addition modulo `2^32`. -/
def add32 (x y : Nat) : Nat :=
  (x + y) % 2 ^ 32

/-- Right rotation of a 32-bit word by `n` places (for `x < 2^32`). -/
def rotr (n x : Nat) : Nat :=
  x / 2 ^ n + x % 2 ^ n * 2 ^ (32 - n)

/-- SHA-256 `Ch(x, y, z)`. -/
def shaCh (x y z : Nat) : Nat :=
  (x &&& y) ^^^ ((x ^^^ 0xffffffff) &&& z)

/-- SHA-256 `Maj(x, y, z)`. -/
def shaMaj (x y z : Nat) : Nat :=
  (x &&& y) ^^^ (x &&& z) ^^^ (y &&& z)

/-- SHA-256 `Σ₀`. -/
def bigSigma0 (x : Nat) : Nat :=
  rotr 2 x ^^^ rotr 13 x ^^^ rotr 22 x

/-- SHA-256 `Σ₁`. -/
def bigSigma1 (x : Nat) : Nat :=
  rotr 6 x ^^^ rotr 11 x ^^^ rotr 25 x

/-- SHA-256 `σ₀`. -/
def smallSigma0 (x : Nat) : Nat :=
  rotr 7 x ^^^ rotr 18 x ^^^ x / 2 ^ 3

/-- SHA-256 `σ₁`. -/
def smallSigma1 (x : Nat) : Nat :=
  rotr 17 x ^^^ rotr 19 x ^^^ x / 2 ^ 10

/-- The 64 SHA-256 round constants. -/
def shaK : List Nat :=
  [1116352408, 1899447441, 3049323471, 3921009573, 961987163,
   1508970993, 2453635748, 2870763221, 3624381080, 310598401,
   607225278, 1426881987, 1925078388, 2162078206, 2614888103,
   3248222580, 3835390401, 4022224774, 264347078, 604807628,
   770255983, 1249150122, 1555081692, 1996064986, 2554220882,
   2821834349, 2952996808, 3210313671, 3336571891, 3584528711,
   113926993, 338241895, 666307205, 773529912, 1294757372,
   1396182291, 1695183700, 1986661051, 2177026350, 2456956037,
   2730485921, 2820302411, 3259730800, 3345764771, 3516065817,
   3600352804, 4094571909, 275423344, 430227734, 506948616,
   659060556, 883997877, 958139571, 1322822218, 1537002063,
   1747873779, 1955562222, 2024104815, 2227730452, 2361852424,
   2428436474, 2756734187, 3204031479, 3329325298]

/-- The SHA-256 working state: eight 32-bit words. -/
structure ShaState where
  a : Nat
  b : Nat
  c : Nat
  d : Nat
  e : Nat
  f : Nat
  g : Nat
  h : Nat
deriving Repr, DecidableEq

/-- The SHA-256 initial hash value. -/
def shaInit : ShaState :=
  ⟨1779033703, 3144134277, 1013904242, 2773480762,
   1359893119, 2600822924, 528734635, 1541459225⟩

/-- Big-endian 8-byte encoding of a (< 2^64) length value. -/
def be64 (n : Nat) : List Nat :=
  [n / 2 ^ 56 % 256, n / 2 ^ 48 % 256, n / 2 ^ 40 % 256, n / 2 ^ 32 % 256,
   n / 2 ^ 24 % 256, n / 2 ^ 16 % 256, n / 2 ^ 8 % 256, n % 256]

/-- Big-endian 4-byte encoding of a 32-bit word. -/
def be32 (n : Nat) : List Nat :=
  [n / 2 ^ 24 % 256, n / 2 ^ 16 % 256, n / 2 ^ 8 % 256, n % 256]

/-- SHA-256 padding: `0x80`, zeros to 56 mod 64, the bit length on 8 bytes. -/
def padMessage (msg : List Nat) : List Nat :=
  msg ++ 0x80 :: List.replicate ((119 - msg.length % 64) % 64) 0 ++
    be64 (8 * msg.length)

/-- Split into 64-byte blocks (the input length is a multiple of 64 after
padding; a ragged final block cannot arise there). -/
def chunks64 : List Nat → List (List Nat)
  | [] => []
  | x :: xs => (x :: xs).take 64 :: chunks64 ((x :: xs).drop 64)
termination_by l => l.length
decreasing_by simp; omega

/-- Big-endian 32-bit words from bytes (16 words from a 64-byte block). -/
def toWords : List Nat → List Nat
  | b0 :: b1 :: b2 :: b3 :: rest =>
    (b0 * 2 ^ 24 + b1 * 2 ^ 16 + b2 * 2 ^ 8 + b3) :: toWords rest
  | _ => []

/-- One extension step of the message schedule: append `W[t]` for the next
`t` from `W[t-2]`, `W[t-7]`, `W[t-15]`, `W[t-16]`. -/
def scheduleStep (ws : List Nat) : List Nat :=
  ws ++ [add32
    (add32 (smallSigma1 (ws.getD (ws.length - 2) 0)) (ws.getD (ws.length - 7) 0))
    (add32 (smallSigma0 (ws.getD (ws.length - 15) 0)) (ws.getD (ws.length - 16) 0))]

/-- The full 64-word message schedule of one block. -/
def schedule (ws : List Nat) : List Nat :=
  List.foldl (fun acc _ => scheduleStep acc) ws (List.range 48)

/-- One SHA-256 compression round, consuming one `(K[t], W[t])` pair. -/
def shaRound (s : ShaState) (kw : Nat × Nat) : ShaState :=
  let t1 := add32 (add32 (add32 s.h (bigSigma1 s.e))
    (add32 (shaCh s.e s.f s.g) kw.1)) kw.2
  let t2 := add32 (bigSigma0 s.a) (shaMaj s.a s.b s.c)
  ⟨add32 t1 t2, s.a, s.b, s.c, add32 s.d t1, s.e, s.f, s.g⟩

/-- Compress one 64-byte block into the running hash state. -/
def compressBlock (hs : ShaState) (block : List Nat) : ShaState :=
  let s := List.foldl shaRound hs (shaK.zip (schedule (toWords block)))
  ⟨add32 hs.a s.a, add32 hs.b s.b, add32 hs.c s.c, add32 hs.d s.d,
   add32 hs.e s.e, add32 hs.f s.f, add32 hs.g s.g, add32 hs.h s.h⟩

/-- SHA-256 of a byte list, as a list of 32 bytes. -/
def sha256 (msg : List Nat) : List Nat :=
  let s := List.foldl compressBlock shaInit (chunks64 (padMessage msg))
  be32 s.a ++ be32 s.b ++ be32 s.c ++ be32 s.d ++
  be32 s.e ++ be32 s.f ++ be32 s.g ++ be32 s.h

/-! ## HMAC-SHA256 (`hmac.new(secret, msg, digestmod=hashlib.sha256)`) -/

/-- HMAC key normalization for SHA-256's 64-byte block size: hash keys
longer than a block, then zero-pad to exactly one block. -/
def hmacKey (key : List Nat) : List Nat :=
  let k0 := if 64 < key.length then sha256 key else key
  k0 ++ List.replicate (64 - k0.length) 0

/-- HMAC-SHA256: `H((k ⊕ opad) ++ H((k ⊕ ipad) ++ msg))`. -/
def hmacSha256 (key msg : List Nat) : List Nat :=
  let k := hmacKey key
  sha256 ((k.map (fun b => b ^^^ 0x5c)) ++
    sha256 ((k.map (fun b => b ^^^ 0x36)) ++ msg))

/-! ## JSON payload and token assembly (`make_engine_jwt`) -/

/-- Decimal digits of `n`, most significant first, as characters
(`str(int)` in Python, for the nonneg values `int(time.time())` yields). -/
def decChars (n : Nat) : List Char :=
  if n = 0 then ['0']
  else ((Nat.digits 10 n).map (fun d => Char.ofNat (48 + d))).reverse

/-- Decimal rendering of a natural number. -/
def natDecRepr (n : Nat) : String :=
  String.mk (decChars n)

/-- UTF-8 bytes of a string.  Every string this model encodes is ASCII
(base64url output, compact JSON of `{"alg":...}` and `{"iat":n}`), where
UTF-8 bytes are exactly the code points. -/
def utf8 (s : String) : List Nat :=
  s.toList.map Char.toNat

/-- The fixed JWT header, line 16 of the script. -/
def headerJson : String :=
  "\x7b\"alg\":\"HS256\",\"typ\":\"JWT\"\x7d"

/-- `json.dumps({"iat": t}, separators=(",", ":"))`, line 17. -/
def iatJson (t : Nat) : String :=
  "\x7b\"iat\":" ++ natDecRepr t ++ "\x7d"

/-- The header segment of every issued token. -/
def headerSeg : String :=
  b64url (utf8 headerJson)

/-- The payload segment of a token issued at unix second `t`. -/
def payloadSeg (t : Nat) : String :=
  b64url (utf8 (iatJson t))

/-- The signature segment: base64url of the HMAC-SHA256, under the decoded
secret, of the signing input `header "." payload` (lines 18–19). -/
def sigSeg (secret : List Nat) (t : Nat) : String :=
  b64url (hmacSha256 secret (utf8 (headerSeg ++ "." ++ payloadSeg t)))

/-- `make_engine_jwt(secret_hex)` with the clock made explicit: decode the
hex secret (`none` models the `ValueError` on malformed hex) and join the
three segments with `"."`. -/
def make_engine_jwt (secret_hex : String) (t : Nat) : Option String :=
  (fromhex secret_hex).map (fun secret =>
    headerSeg ++ "." ++ payloadSeg t ++ "." ++ sigSeg secret t)

/-! ## Trace model of `main` -/

/-- One observable transport action of the script. -/
inductive Event where
  /-- The websocket handshake, with its extra HTTP headers
  (`connect(WS_URL, additional_headers=headers, max_size=None)`). -/
  | handshake (headers : List (String × String))
  /-- A message sent over the open connection (`ws.send(...)`). -/
  | sendMsg (payload : String)
  /-- A blocking receive (`ws.recv()`). -/
  | recvMsg
deriving Repr, DecidableEq

/-- `json.dumps(req)` for the `engine_exchangeCapabilities` request of
lines 29–31 (default separators, insertion order). -/
def reqJson : String :=
  "\x7b\"jsonrpc\": \"2.0\", \"id\": 1, \"method\": \"engine_exchangeCapabilities\", \"params\": [[]]\x7d"

/-- The transport actions `main` performs with a given token: one handshake
carrying the bearer header, one send of the request, one receive. -/
def mainTrace (jwt : String) : List Event :=
  [Event.handshake [("Authorization", "Bearer " ++ jwt)],
   Event.sendMsg reqJson,
   Event.recvMsg]

/-- Whether an event is a connection handshake. -/
def isHandshake : Event → Bool
  | Event.handshake _ => true
  | _ => false

/-- The whole script run: the module issues the token once (line 23,
`JWT = make_engine_jwt(JWT_SECRET)`, at clock `t0`), then `main` connects
with it; a malformed secret aborts before any connection. -/
def runScript (secret_hex : String) (t0 : Nat) : Option (List Event) :=
  (make_engine_jwt secret_hex t0).map mainTrace

/-- The `max_size` argument `main` passes to `connect` (line 27):
`None`, that is, no message-size ceiling. -/
def mainMaxSize : Option Nat :=
  none

/-- Modelled from the spec (§4.2, §6) and the websockets library semantics
the script relies on, not present under `src/`: the transport accepts an
inbound frame exactly when no configured maximum size is exceeded, and a
`max_size` of `None` disables the ceiling. -/
def acceptsFrame (maxSize : Option Nat) (frameLen : Nat) : Bool :=
  match maxSize with
  | none => true
  | some m => frameLen ≤ m

/-! ## Correlation router (modelled from the spec) -/

/-- Modelled from the spec: §4.3's Correlation Router pending set, which
`src/` only illustrates (the script sends one request and reads one frame
raw).  Each pending request is a correlation id with a completion slot,
`none` while unsettled. -/
def Pending (α : Type) : Type :=
  List (Nat × Option α)

/-- Modelled from the spec: §4.3 `onFrame` on a Response frame — settle the
pending request whose id matches, exactly once (an already-settled slot is
left untouched); entries with other ids are never altered. -/
def settleFrame {α : Type} [DecidableEq α] (pending : Pending α) (fid : Nat)
    (res : α) : Pending α :=
  pending.map (fun e => if e.1 = fid ∧ e.2 = none then (e.1, some res) else e)

/-- The completion slot a caller holding correlation id `i` observes. -/
def slotOf {α : Type} (pending : Pending α) (i : Nat) : Option (Option α) :=
  List.lookup i pending

/-! ## Lemmas: base64url -/

theorem b64CharVal?_b64Char : ∀ x : Nat, x < 64 → b64CharVal? (b64Char x) = some x := by
  decide

theorem isB64UrlChar_b64Char : ∀ x : Nat, x < 64 → isB64UrlChar (b64Char x) = true := by
  decide

theorem b64Char_ne : ∀ x : Nat, x < 64 → b64Char x ≠ '=' ∧ b64Char x ≠ '.' := by
  decide

/-- The encoder round-trips: decoding the unpadded base64url of any byte
list recovers it exactly. -/
theorem b64urlDecodeChars_b64urlChars (l : List Nat) (hl : ∀ b ∈ l, b < 256) :
    b64urlDecodeChars (b64urlChars l) = some l := by
  induction l using b64urlChars.induct with
  | case1 => rfl
  | case2 b1 =>
    have h1 : b1 < 256 := hl b1 (by simp)
    simp only [b64urlChars, b64urlDecodeChars]
    rw [b64CharVal?_b64Char _ (by omega), b64CharVal?_b64Char _ (by omega)]
    simp only
    rw [if_pos (by omega)]
    congr 2
    omega
  | case3 b1 b2 =>
    have h1 : b1 < 256 := hl b1 (by simp)
    have h2 : b2 < 256 := hl b2 (by simp)
    simp only [b64urlChars, b64urlDecodeChars]
    rw [b64CharVal?_b64Char _ (by omega), b64CharVal?_b64Char _ (by omega),
        b64CharVal?_b64Char _ (by omega)]
    simp only
    rw [if_pos (by omega)]
    congr 1
    congr 1
    · omega
    congr 1
    omega
  | case4 b1 b2 b3 rest ih =>
    have h1 : b1 < 256 := hl b1 (by simp)
    have h2 : b2 < 256 := hl b2 (by simp)
    have h3 : b3 < 256 := hl b3 (by simp)
    have hrest : ∀ b ∈ rest, b < 256 := fun b hb => hl b (by simp [hb])
    simp only [b64urlChars, b64urlDecodeChars]
    rw [b64CharVal?_b64Char _ (by omega), b64CharVal?_b64Char _ (by omega),
        b64CharVal?_b64Char _ (by omega), b64CharVal?_b64Char _ (by omega),
        ih hrest]
    simp only
    congr 1
    congr 1
    · omega
    congr 1
    · omega
    congr 1
    omega

/-- The encoder is injective on byte lists (a consequence of the
round-trip). -/
theorem b64urlChars_injective {l1 l2 : List Nat} (h1 : ∀ b ∈ l1, b < 256)
    (h2 : ∀ b ∈ l2, b < 256) (he : b64urlChars l1 = b64urlChars l2) :
    l1 = l2 := by
  have := b64urlDecodeChars_b64urlChars l1 h1
  rw [he, b64urlDecodeChars_b64urlChars l2 h2] at this
  exact (Option.some.injEq _ _).mp this.symm

/-- Every character the encoder emits is in the URL-safe alphabet. -/
theorem mem_b64urlChars_alphabet {l : List Nat} (hl : ∀ b ∈ l, b < 256) :
    ∀ c ∈ b64urlChars l, isB64UrlChar c = true := by
  induction l using b64urlChars.induct with
  | case1 => simp [b64urlChars]
  | case2 b1 =>
    have h1 : b1 < 256 := hl b1 (by simp)
    simp only [b64urlChars, List.mem_cons, List.not_mem_nil, or_false]
    rintro c (rfl | rfl) <;> exact isB64UrlChar_b64Char _ (by omega)
  | case3 b1 b2 =>
    have h1 : b1 < 256 := hl b1 (by simp)
    have h2 : b2 < 256 := hl b2 (by simp)
    simp only [b64urlChars, List.mem_cons, List.not_mem_nil, or_false]
    rintro c (rfl | rfl | rfl) <;> exact isB64UrlChar_b64Char _ (by omega)
  | case4 b1 b2 b3 rest ih =>
    have h1 : b1 < 256 := hl b1 (by simp)
    have h2 : b2 < 256 := hl b2 (by simp)
    have h3 : b3 < 256 := hl b3 (by simp)
    have hrest : ∀ b ∈ rest, b < 256 := fun b hb => hl b (by simp [hb])
    simp only [b64urlChars, List.mem_cons]
    rintro c (rfl | rfl | rfl | rfl | hc)
    · exact isB64UrlChar_b64Char _ (by omega)
    · exact isB64UrlChar_b64Char _ (by omega)
    · exact isB64UrlChar_b64Char _ (by omega)
    · exact isB64UrlChar_b64Char _ (by omega)
    · exact ih hrest c hc

/-- No URL-safe alphabet character is `'='` or `'.'`. -/
theorem isB64UrlChar_excludes {c : Char} (hc : isB64UrlChar c = true) :
    c ≠ '=' ∧ c ≠ '.' := by
  constructor <;> rintro rfl <;> simp [isB64UrlChar] at hc

/-- Length of the unpadded encoding: four characters per full 3-byte group,
two or three for a trailing group of one or two bytes. -/
theorem b64urlChars_length (l : List Nat) :
    (b64urlChars l).length =
      4 * (l.length / 3) + (if l.length % 3 = 0 then 0 else l.length % 3 + 1) := by
  induction l using b64urlChars.induct with
  | case1 => rfl
  | case2 b1 => simp [b64urlChars]
  | case3 b1 b2 => simp [b64urlChars]
  | case4 b1 b2 b3 rest ih =>
    simp only [b64urlChars, List.length_cons, ih]
    have hm : (rest.length + 1 + 1 + 1) % 3 = rest.length % 3 := by omega
    have hd : (rest.length + 1 + 1 + 1) / 3 = rest.length / 3 + 1 := by omega
    rw [hm, hd]
    by_cases h : rest.length % 3 = 0 <;> simp [h] <;> omega

/-! ## Lemmas: SHA-256 and HMAC output shape -/

theorem be32_length (n : Nat) : (be32 n).length = 4 := rfl

theorem be32_lt (n : Nat) : ∀ b ∈ be32 n, b < 256 := by
  simp only [be32, List.mem_cons, List.not_mem_nil, or_false]
  rintro b (rfl | rfl | rfl | rfl) <;> omega

/-- A SHA-256 digest is always 32 bytes, whatever the message. -/
theorem sha256_length (msg : List Nat) : (sha256 msg).length = 32 := by
  simp [sha256, be32]

/-- Every byte of a SHA-256 digest is below 256. -/
theorem sha256_lt (msg : List Nat) : ∀ b ∈ sha256 msg, b < 256 := by
  simp only [sha256, List.mem_append]
  rintro b (((((((hb | hb) | hb) | hb) | hb) | hb) | hb) | hb) <;>
    exact be32_lt _ b hb

/-- An HMAC-SHA256 tag is always 32 bytes, whatever the key and message. -/
theorem hmacSha256_length (key msg : List Nat) :
    (hmacSha256 key msg).length = 32 :=
  sha256_length _

theorem hmacSha256_lt (key msg : List Nat) : ∀ b ∈ hmacSha256 key msg, b < 256 :=
  sha256_lt _

/-! ## Lemmas: characters, decimal rendering, UTF-8 of ASCII -/

theorem charToNat_inj {a b : Char} (h : a.toNat = b.toNat) : a = b :=
  Char.ext (UInt32.ext h)

theorem digitChar_toNat : ∀ d : Nat, d < 10 → (Char.ofNat (48 + d)).toNat = 48 + d := by
  decide

/-- Distinct naturals render to distinct decimal digit strings. -/
theorem decChars_injective {a b : Nat} (h : decChars a = decChars b) : a = b := by
  have key : ∀ n : Nat, n ≠ 0 →
      (((Nat.digits 10 n).map (fun d => Char.ofNat (48 + d))).reverse).map
        (fun c => c.toNat - 48) = (Nat.digits 10 n).reverse := by
    intro n _
    rw [← List.map_reverse, List.map_map]
    conv_rhs => rw [← List.map_id ((Nat.digits 10 n).reverse)]
    apply List.map_congr_left
    intro d hd
    have hd10 : d < 10 := Nat.digits_lt_base (by omega) (List.mem_reverse.mp hd)
    simp [digitChar_toNat d hd10]
  by_cases ha : a = 0 <;> by_cases hb : b = 0
  · omega
  · exfalso
    rw [decChars, decChars, if_pos ha, if_neg hb] at h
    have := congrArg (List.map (fun c => c.toNat - 48)) h
    rw [key b hb] at this
    have hdig : Nat.digits 10 b = [0] := by
      have := congrArg List.reverse this
      simpa using this.symm
    have := Nat.ofDigits_digits 10 b
    rw [hdig] at this
    simp [Nat.ofDigits] at this
    omega
  · exfalso
    rw [decChars, decChars, if_neg ha, if_pos hb] at h
    have := congrArg (List.map (fun c => c.toNat - 48)) h
    rw [key a ha] at this
    have hdig : Nat.digits 10 a = [0] := by
      have := congrArg List.reverse this
      simpa using this
    have := Nat.ofDigits_digits 10 a
    rw [hdig] at this
    simp [Nat.ofDigits] at this
    omega
  · rw [decChars, decChars, if_neg ha, if_neg hb] at h
    have := congrArg (List.map (fun c => c.toNat - 48)) h
    rw [key a ha, key b hb] at this
    have hdig : Nat.digits 10 a = Nat.digits 10 b :=
      List.reverse_injective this
    have h1 := Nat.ofDigits_digits 10 a
    have h2 := Nat.ofDigits_digits 10 b
    rw [← h1, ← h2, hdig]

theorem natDecRepr_injective {a b : Nat} (h : natDecRepr a = natDecRepr b) :
    a = b := by
  apply decChars_injective
  have := congrArg String.toList h
  simpa [natDecRepr] using this

/-- `utf8` is injective (code points determine characters). -/
theorem utf8_injective {s1 s2 : String} (h : utf8 s1 = utf8 s2) : s1 = s2 := by
  have hl : s1.toList = s2.toList := by
    have := List.map_injective_iff.mpr (fun a b hab => charToNat_inj hab) h
    exact this
  cases s1
  cases s2
  exact congrArg String.mk (by simpa [String.toList] using hl)

theorem decChars_lt (n : Nat) : ∀ c ∈ decChars n, c.toNat < 256 := by
  intro c hc
  rw [decChars] at hc
  by_cases hn : n = 0
  · rw [if_pos hn] at hc
    simp at hc
    subst hc
    decide
  · rw [if_neg hn] at hc
    obtain ⟨d, hd, rfl⟩ := List.mem_map.mp (List.mem_reverse.mp hc)
    have hd10 : d < 10 := Nat.digits_lt_base (by omega) hd
    rw [digitChar_toNat d hd10]
    omega

/-- All bytes of the payload JSON are genuine bytes (< 256). -/
theorem utf8_iatJson_lt (t : Nat) : ∀ b ∈ utf8 (iatJson t), b < 256 := by
  intro b hb
  simp only [utf8, List.mem_map] at hb
  obtain ⟨c, hc, rfl⟩ := hb
  have : (iatJson t).toList =
      "\x7b\"iat\":".toList ++ decChars t ++ "\x7d".toList := by
    simp [iatJson, natDecRepr, String.toList]
  rw [this] at hc
  simp only [List.mem_append] at hc
  rcases hc with (hc | hc) | hc
  · fin_cases hc <;> decide
  · exact decChars_lt t c hc
  · fin_cases hc
    decide

/-- All bytes of the fixed header JSON are genuine bytes. -/
theorem utf8_headerJson_lt : ∀ b ∈ utf8 headerJson, b < 256 := by
  decide

/-! ## Lemmas: the three token segments -/

theorem toList_b64url (l : List Nat) : (b64url l).toList = b64urlChars l := rfl

theorem headerSeg_alphabet : ∀ c ∈ headerSeg.toList, isB64UrlChar c = true := by
  rw [headerSeg, toList_b64url]
  exact mem_b64urlChars_alphabet utf8_headerJson_lt

theorem payloadSeg_alphabet (t : Nat) :
    ∀ c ∈ (payloadSeg t).toList, isB64UrlChar c = true := by
  rw [payloadSeg, toList_b64url]
  exact mem_b64urlChars_alphabet (utf8_iatJson_lt t)

theorem sigSeg_alphabet (secret : List Nat) (t : Nat) :
    ∀ c ∈ (sigSeg secret t).toList, isB64UrlChar c = true := by
  rw [sigSeg, toList_b64url]
  exact mem_b64urlChars_alphabet (hmacSha256_lt _ _)

theorem dot_not_mem_headerSeg : '.' ∉ headerSeg.toList := by
  intro h
  exact (isB64UrlChar_excludes (headerSeg_alphabet '.' h)).2 rfl

theorem dot_not_mem_payloadSeg (t : Nat) : '.' ∉ (payloadSeg t).toList := by
  intro h
  exact (isB64UrlChar_excludes (payloadSeg_alphabet t '.' h)).2 rfl

theorem dot_not_mem_sigSeg (secret : List Nat) (t : Nat) :
    '.' ∉ (sigSeg secret t).toList := by
  intro h
  exact (isB64UrlChar_excludes (sigSeg_alphabet secret t '.' h)).2 rfl

theorem headerSeg_length : headerSeg.toList.length = 36 := by
  rw [headerSeg, toList_b64url, b64urlChars_length]
  rfl

theorem decChars_length_pos (t : Nat) : 1 ≤ (decChars t).length := by
  rw [decChars]
  by_cases h : t = 0
  · simp [h]
  · rw [if_neg h]
    simp only [List.length_reverse, List.length_map]
    exact List.length_pos.mpr (Nat.digits_ne_nil_iff_ne_zero.mpr h)

theorem payloadSeg_length_ge (t : Nat) : 12 ≤ (payloadSeg t).toList.length := by
  rw [payloadSeg, toList_b64url, b64urlChars_length]
  have h9 : 9 ≤ (utf8 (iatJson t)).length := by
    have hl : (iatJson t).toList =
        "\x7b\"iat\":".toList ++ (decChars t ++ "\x7d".toList) := by
      simp [iatJson, natDecRepr, String.toList]
    have h1 := decChars_length_pos t
    have e1 : "\x7b\"iat\":".toList.length = 7 := rfl
    have e2 : "\x7d".toList.length = 1 := rfl
    simp only [utf8, List.length_map, hl, List.length_append, e1, e2]
    omega
  set n := (utf8 (iatJson t)).length with hn
  by_cases h : n % 3 = 0 <;> simp [h] <;> omega

theorem sigSeg_length (secret : List Nat) (t : Nat) :
    (sigSeg secret t).toList.length = 43 := by
  rw [sigSeg, toList_b64url, b64urlChars_length, hmacSha256_length]
  decide

/-- The decoded signature segment is exactly the HMAC-SHA256 tag it encodes. -/
theorem b64urlDecode_sigSeg (secret : List Nat) (t : Nat) :
    b64urlDecode (sigSeg secret t) =
      some (hmacSha256 secret (utf8 (headerSeg ++ "." ++ payloadSeg t))) := by
  rw [sigSeg, b64urlDecode, toList_b64url]
  exact b64urlDecodeChars_b64urlChars _ (hmacSha256_lt _ _)

/-- Distinct issue seconds yield distinct payload segments. -/
theorem payloadSeg_inj {t1 t2 : Nat} (h : payloadSeg t1 = payloadSeg t2) :
    t1 = t2 := by
  rw [payloadSeg, payloadSeg] at h
  have hchars : b64urlChars (utf8 (iatJson t1)) = b64urlChars (utf8 (iatJson t2)) :=
    congrArg String.toList h
  have hutf : utf8 (iatJson t1) = utf8 (iatJson t2) :=
    b64urlChars_injective (utf8_iatJson_lt t1) (utf8_iatJson_lt t2) hchars
  have hjson : iatJson t1 = iatJson t2 := utf8_injective hutf
  have hlist : "\x7b\"iat\":".toList ++ (decChars t1 ++ "\x7d".toList) =
      "\x7b\"iat\":".toList ++ (decChars t2 ++ "\x7d".toList) := by
    have := congrArg String.toList hjson
    simpa [iatJson, natDecRepr, String.toList] using this
  have hmid : decChars t1 ++ "\x7d".toList = decChars t2 ++ "\x7d".toList :=
    List.append_cancel_left hlist
  exact decChars_injective (List.append_cancel_right hmid)

/-- The characters of every issued token: header, dot, payload, dot,
signature. -/
theorem make_engine_jwt_chars {hex : String} {secret : List Nat} (t : Nat)
    (hsec : fromhex hex = some secret) :
    ∃ tok : String, make_engine_jwt hex t = some tok ∧
      tok.toList = headerSeg.toList ++ '.' ::
        ((payloadSeg t).toList ++ '.' :: (sigSeg secret t).toList) := by
  refine ⟨_, by rw [make_engine_jwt, hsec]; rfl, ?_⟩
  simp [String.toList]

/-! ## Lemmas: correlation router -/

theorem settleFrame_cons {α : Type} [DecidableEq α] (k : Nat) (s : Option α)
    (rest : Pending α) (fid : Nat) (res : α) :
    settleFrame ((k, s) :: rest) fid res =
      (if k = fid ∧ s = none then (k, some res) else (k, s)) ::
        settleFrame rest fid res := by
  simp only [settleFrame, List.map_cons]

theorem slotOf_cons {α : Type} (k : Nat) (s : Option α) (rest : Pending α)
    (j : Nat) :
    slotOf ((k, s) :: rest) j = if j = k then some s else slotOf rest j := by
  by_cases h : j = k
  · simp [slotOf, List.lookup, h]
  · simp only [slotOf, List.lookup, if_neg h]
    rw [show (j == k) = false from by simpa using h]

theorem slotOf_settleFrame_ne {α : Type} [DecidableEq α] (pending : Pending α)
    (fid : Nat) (res : α) (j : Nat) (hj : j ≠ fid) :
    slotOf (settleFrame pending fid res) j = slotOf pending j := by
  induction pending with
  | nil => rfl
  | cons e rest ih =>
    obtain ⟨k, s⟩ := e
    rw [settleFrame_cons]
    by_cases hk : k = fid ∧ s = none
    · rw [if_pos hk, slotOf_cons, slotOf_cons]
      by_cases hjk : j = k
      · exact absurd (hjk.trans hk.1) hj
      · rw [if_neg hjk, if_neg hjk]
        exact ih
    · rw [if_neg hk, slotOf_cons, slotOf_cons]
      by_cases hjk : j = k
      · rw [if_pos hjk, if_pos hjk]
      · rw [if_neg hjk, if_neg hjk]
        exact ih

theorem slotOf_settleFrame_eq {α : Type} [DecidableEq α] (pending : Pending α)
    (fid : Nat) (res : α) (hp : slotOf pending fid = some none) :
    slotOf (settleFrame pending fid res) fid = some (some res) := by
  induction pending with
  | nil => simp [slotOf, List.lookup] at hp
  | cons e rest ih =>
    obtain ⟨k, s⟩ := e
    rw [settleFrame_cons]
    by_cases hfk : fid = k
    · rw [slotOf_cons, if_pos hfk] at hp
      have hs : s = none := by exact (Option.some.injEq _ _).mp hp
      rw [if_pos ⟨hfk.symm, hs⟩, slotOf_cons, if_pos hfk]
    · rw [slotOf_cons, if_neg hfk] at hp
      have hkf : ¬ (k = fid ∧ s = none) := fun hc => hfk hc.1.symm
      rw [if_neg hkf, slotOf_cons, if_neg hfk]
      exact ih hp


/-! ## The claims -/

/-- C1: for every well-formed hex secret and every clock value, the issued
token is three unpadded base64url segments joined by `.`: the base64url of
the fixed header JSON, the base64url of the compact `iat` payload JSON for
the issue second `t`, and the base64url of the HMAC-SHA256, under the
decoded secret, of `header-segment "." payload-segment`. -/
theorem c1_token_format (hex : String) (secret : List Nat) (t : Nat)
    (hsec : fromhex hex = some secret) :
    make_engine_jwt hex t = some
      (b64url (utf8 "\x7b\"alg\":\"HS256\",\"typ\":\"JWT\"\x7d") ++ "." ++
       b64url (utf8 ("\x7b\"iat\":" ++ natDecRepr t ++ "\x7d")) ++ "." ++
       b64url (hmacSha256 secret (utf8
         (b64url (utf8 "\x7b\"alg\":\"HS256\",\"typ\":\"JWT\"\x7d") ++ "." ++
          b64url (utf8 ("\x7b\"iat\":" ++ natDecRepr t ++ "\x7d")))))) := by
  rw [make_engine_jwt, hsec]
  rfl

/-- Witness for C1 at the concrete secret `"aa"` and clock `0`. -/
theorem c1_token_format_witness :
    fromhex "aa" = some [170] ∧
    make_engine_jwt "aa" 0 = some
      (b64url (utf8 "\x7b\"alg\":\"HS256\",\"typ\":\"JWT\"\x7d") ++ "." ++
       b64url (utf8 ("\x7b\"iat\":" ++ natDecRepr 0 ++ "\x7d")) ++ "." ++
       b64url (hmacSha256 [170] (utf8
         (b64url (utf8 "\x7b\"alg\":\"HS256\",\"typ\":\"JWT\"\x7d") ++ "." ++
          b64url (utf8 ("\x7b\"iat\":" ++ natDecRepr 0 ++ "\x7d")))))) :=
  ⟨by decide, c1_token_format "aa" [170] 0 (by decide)⟩

/-- C3 counterexample: the claim requires issuance to fail on a secret whose
decoded byte length is zero, but the code accepts the empty hex string
(decoded to zero bytes) and returns a token. -/
theorem c3_empty_secret_accepted : (make_engine_jwt "" 0).isSome = true := by
  rfl

/-- C3 (amended): token issuance fails exactly when the hexadecimal
representation is malformed; a zero-byte decoded secret is accepted. -/
theorem c3_failure_iff_malformed_hex (hex : String) (t : Nat) :
    make_engine_jwt hex t = none ↔ fromhex hex = none := by
  rw [make_engine_jwt]
  cases fromhex hex <;> simp

/-- C8: the session transport imposes no maximum message size: `main`
passes `max_size=None`, so a frame of any byte length is accepted. -/
theorem c8_no_message_size_ceiling (len : Nat) :
    acceptsFrame mainMaxSize len = true := by
  rfl

/-- C9: for every byte sequence, `_b64url` emits only URL-safe base64
alphabet characters, no `=` padding, and decoding the unpadded output
(equivalently, decoding after restoring the stripped padding) recovers the
input exactly. -/
theorem c9_b64url_roundtrip (l : List Nat) (hl : ∀ b ∈ l, b < 256) :
    (∀ c ∈ (b64url l).toList, isB64UrlChar c = true) ∧
    '=' ∉ (b64url l).toList ∧
    b64urlDecode (b64url l) = some l := by
  refine ⟨mem_b64urlChars_alphabet hl, ?_, ?_⟩
  · intro hmem
    exact (isB64UrlChar_excludes (mem_b64urlChars_alphabet hl '=' hmem)).1 rfl
  · exact b64urlDecodeChars_b64urlChars l hl

/-- Witness for C9 at the concrete bytes `[0, 77, 255]`. -/
theorem c9_b64url_roundtrip_witness :
    (∀ b ∈ [0, 77, 255], b < 256) ∧
    ((∀ c ∈ (b64url [0, 77, 255]).toList, isB64UrlChar c = true) ∧
     '=' ∉ (b64url [0, 77, 255]).toList ∧
     b64urlDecode (b64url [0, 77, 255]) = some [0, 77, 255]) :=
  ⟨by decide, c9_b64url_roundtrip [0, 77, 255] (by decide)⟩

/-- C10: every issued token splits at its exactly two `.` characters into
three non-empty segments, and the signature segment always has 43
characters, the HMAC-SHA256 digest being 32 bytes whatever the secret. -/
theorem c10_token_shape (hex : String) (secret : List Nat) (t : Nat)
    (hsec : fromhex hex = some secret) :
    ∃ (tok : String) (h p s : List Char),
      make_engine_jwt hex t = some tok ∧
      tok.toList = h ++ '.' :: (p ++ '.' :: s) ∧
      tok.toList.count '.' = 2 ∧
      h ≠ [] ∧ p ≠ [] ∧ s ≠ [] ∧
      '.' ∉ h ∧ '.' ∉ p ∧ '.' ∉ s ∧
      s.length = 43 := by
  obtain ⟨tok, htok, hchars⟩ := make_engine_jwt_chars t hsec
  refine ⟨tok, headerSeg.toList, (payloadSeg t).toList, (sigSeg secret t).toList,
    htok, hchars, ?_, ?_, ?_, ?_,
    dot_not_mem_headerSeg, dot_not_mem_payloadSeg t, dot_not_mem_sigSeg secret t,
    sigSeg_length secret t⟩
  · rw [hchars]
    simp only [List.count_append, List.count_cons]
    rw [List.count_eq_zero.mpr dot_not_mem_headerSeg,
        List.count_eq_zero.mpr (dot_not_mem_payloadSeg t),
        List.count_eq_zero.mpr (dot_not_mem_sigSeg secret t)]
    simp
  · intro hh
    have := headerSeg_length
    rw [hh] at this
    simp at this
  · intro hh
    have := payloadSeg_length_ge t
    rw [hh] at this
    simp at this
  · intro hh
    have := sigSeg_length secret t
    rw [hh] at this
    simp at this

/-- Witness for C10 at the concrete secret `"aa"` and clock `0`. -/
theorem c10_token_shape_witness :
    fromhex "aa" = some [170] ∧
    (∃ (tok : String) (h p s : List Char),
      make_engine_jwt "aa" 0 = some tok ∧
      tok.toList = h ++ '.' :: (p ++ '.' :: s) ∧
      tok.toList.count '.' = 2 ∧
      h ≠ [] ∧ p ≠ [] ∧ s ≠ [] ∧
      '.' ∉ h ∧ '.' ∉ p ∧ '.' ∉ s ∧
      s.length = 43) :=
  ⟨by decide, c10_token_shape "aa" [170] 0 (by decide)⟩

/-- C2 (modelled from the spec, §4.3: the Correlation Router the scripts
only illustrate): a response frame settles exactly the pending request
whose correlation id it carries — every other caller's slot is untouched —
and a frame for id `fid` settles an unsettled id-`fid` request with its
result. -/
theorem c2_no_cross_talk {α : Type} [DecidableEq α] (pending : Pending α)
    (fid : Nat) (res : α) (j : Nat) :
    (j ≠ fid → slotOf (settleFrame pending fid res) j = slotOf pending j) ∧
    (slotOf pending fid = some none →
      slotOf (settleFrame pending fid res) fid = some (some res)) :=
  ⟨fun hj => slotOf_settleFrame_ne pending fid res j hj,
   fun hp => slotOf_settleFrame_eq pending fid res hp⟩

/-- Witness for C2: the spec's scenario — with the id-1
`engine_exchangeCapabilities` call pending, a frame with id 2 leaves the
id-1 slot unsettled, and the frame with id 1 and result `[]` settles it
with `[]`. -/
theorem c2_no_cross_talk_witness :
    (slotOf (settleFrame [(1, (none : Option (List Nat)))] 2 []) 1 =
      slotOf [(1, (none : Option (List Nat)))] 1) ∧
    slotOf (settleFrame [(1, (none : Option (List Nat)))] 1 []) 1 =
      some (some []) :=
  ⟨(c2_no_cross_talk [(1, none)] 2 [] 1).1 (by decide),
   (c2_no_cross_talk [(1, none)] 1 [] 1).2 (by decide)⟩

/-- C4: the decoded signature segment of every issued token is byte-for-byte
the HMAC-SHA256, under the same decoded secret, recomputed over the issued
header segment, a dot, and the issued payload segment. -/
theorem c4_signature_recomputation (hex : String) (secret : List Nat) (t : Nat)
    (hsec : fromhex hex = some secret) :
    make_engine_jwt hex t =
      some (headerSeg ++ "." ++ payloadSeg t ++ "." ++ sigSeg secret t) ∧
    b64urlDecode (sigSeg secret t) =
      some (hmacSha256 secret (utf8 (headerSeg ++ "." ++ payloadSeg t))) := by
  refine ⟨?_, b64urlDecode_sigSeg secret t⟩
  rw [make_engine_jwt, hsec]
  rfl

/-- Witness for C4 at the concrete secret `"aa"` and clock `0`. -/
theorem c4_signature_recomputation_witness :
    fromhex "aa" = some [170] ∧
    (make_engine_jwt "aa" 0 =
      some (headerSeg ++ "." ++ payloadSeg 0 ++ "." ++ sigSeg [170] 0) ∧
     b64urlDecode (sigSeg [170] 0) =
      some (hmacSha256 [170] (utf8 (headerSeg ++ "." ++ payloadSeg 0)))) :=
  ⟨by decide, c4_signature_recomputation "aa" [170] 0 (by decide)⟩

/-- C5: two issuances under one valid secret both carry signatures that
verify independently (each signature segment decodes to the HMAC of its own
signing input), and their payload segments coincide exactly when the two
issuances fall in the same whole second. -/
theorem c5_two_issuances (hex : String) (secret : List Nat) (t1 t2 : Nat)
    (hsec : fromhex hex = some secret) :
    make_engine_jwt hex t1 =
      some (headerSeg ++ "." ++ payloadSeg t1 ++ "." ++ sigSeg secret t1) ∧
    make_engine_jwt hex t2 =
      some (headerSeg ++ "." ++ payloadSeg t2 ++ "." ++ sigSeg secret t2) ∧
    b64urlDecode (sigSeg secret t1) =
      some (hmacSha256 secret (utf8 (headerSeg ++ "." ++ payloadSeg t1))) ∧
    b64urlDecode (sigSeg secret t2) =
      some (hmacSha256 secret (utf8 (headerSeg ++ "." ++ payloadSeg t2))) ∧
    (payloadSeg t1 = payloadSeg t2 ↔ t1 = t2) := by
  refine ⟨?_, ?_, b64urlDecode_sigSeg secret t1, b64urlDecode_sigSeg secret t2,
    payloadSeg_inj, fun h => by rw [h]⟩
  · rw [make_engine_jwt, hsec]
    rfl
  · rw [make_engine_jwt, hsec]
    rfl

/-- Witness for C5 at the concrete secret `"aa"` and clocks `0`, `1`. -/
theorem c5_two_issuances_witness :
    fromhex "aa" = some [170] ∧
    (make_engine_jwt "aa" 0 =
      some (headerSeg ++ "." ++ payloadSeg 0 ++ "." ++ sigSeg [170] 0) ∧
     make_engine_jwt "aa" 1 =
      some (headerSeg ++ "." ++ payloadSeg 1 ++ "." ++ sigSeg [170] 1) ∧
     b64urlDecode (sigSeg [170] 0) =
      some (hmacSha256 [170] (utf8 (headerSeg ++ "." ++ payloadSeg 0))) ∧
     b64urlDecode (sigSeg [170] 1) =
      some (hmacSha256 [170] (utf8 (headerSeg ++ "." ++ payloadSeg 1))) ∧
     (payloadSeg 0 = payloadSeg 1 ↔ 0 = 1)) :=
  ⟨by decide, c5_two_issuances "aa" [170] 0 1 (by decide)⟩

/-- C6: the credential is attached exactly once per connection, at
handshake time, as an `Authorization: Bearer` header — the handshake is the
first trace event and the only handshake — and no message sent after the
handshake contains the token (it cannot even occur as a substring of the
one request sent). -/
theorem c6_token_attached_once (hex : String) (secret : List Nat) (t : Nat)
    (hsec : fromhex hex = some secret) :
    ∃ tok : String, make_engine_jwt hex t = some tok ∧
      (mainTrace tok).head? =
        some (Event.handshake [("Authorization", "Bearer " ++ tok)]) ∧
      ((mainTrace tok).filter isHandshake).length = 1 ∧
      ∀ p : String, Event.sendMsg p ∈ mainTrace tok →
        ¬ List.IsInfix tok.toList p.toList := by
  obtain ⟨tok, htok, hchars⟩ := make_engine_jwt_chars t hsec
  refine ⟨tok, htok, rfl, rfl, ?_⟩
  intro p hp hinf
  have hp' : p = reqJson := by
    simp [mainTrace] at hp
    exact hp
  subst hp'
  have hle := hinf.length_le
  have hlen : 93 ≤ tok.toList.length := by
    rw [hchars]
    simp only [List.length_append, List.length_cons, headerSeg_length,
      sigSeg_length]
    have := payloadSeg_length_ge t
    omega
  have hreq : reqJson.toList.length = 84 := rfl
  omega

/-- Witness for C6 at the concrete secret `"aa"` and clock `0`. -/
theorem c6_token_attached_once_witness :
    fromhex "aa" = some [170] ∧
    (∃ tok : String, make_engine_jwt "aa" 0 = some tok ∧
      (mainTrace tok).head? =
        some (Event.handshake [("Authorization", "Bearer " ++ tok)]) ∧
      ((mainTrace tok).filter isHandshake).length = 1 ∧
      ∀ p : String, Event.sendMsg p ∈ mainTrace tok →
        ¬ List.IsInfix tok.toList p.toList) :=
  ⟨by decide, c6_token_attached_once "aa" [170] 0 (by decide)⟩

/-- C7: the script performs exactly one connection attempt, and the token
that attempt attaches is the one freshly issued (from the given secret, at
this run's clock) for it; with a single handshake in the whole trace, no
token is cached from a previous run or reused across reconnects. -/
theorem c7_fresh_token_per_attempt (hex : String) (secret : List Nat) (t0 : Nat)
    (hsec : fromhex hex = some secret) :
    ∃ (jwt : String) (tr : List Event),
      make_engine_jwt hex t0 = some jwt ∧
      runScript hex t0 = some tr ∧
      tr.filter isHandshake =
        [Event.handshake [("Authorization", "Bearer " ++ jwt)]] := by
  obtain ⟨jwt, hjwt, _⟩ := make_engine_jwt_chars t0 hsec
  refine ⟨jwt, mainTrace jwt, hjwt, ?_, rfl⟩
  rw [runScript, hjwt]
  rfl

/-- Witness for C7 at the concrete secret `"aa"` and clock `0`. -/
theorem c7_fresh_token_per_attempt_witness :
    fromhex "aa" = some [170] ∧
    (∃ (jwt : String) (tr : List Event),
      make_engine_jwt "aa" 0 = some jwt ∧
      runScript "aa" 0 = some tr ∧
      tr.filter isHandshake =
        [Event.handshake [("Authorization", "Bearer " ++ jwt)]]) :=
  ⟨by decide, c7_fresh_token_per_attempt "aa" [170] 0 (by decide)⟩

end EngineWS
